import Mathlib

/-!
Verification development for the `render-tree` crate of the
`language-reporting` repository: the stylesheet trie (selector matching
with star/glob segments and per-attribute style merging), the style
attribute algebra, the style-string parser and `Display` serialization,
the document tree combinators, and the terminal writer.

Rust `&'static str` is modelled as `String`; the `HashMap<Segment, Node>`
of trie children is modelled as an association list with at most one
entry per key (lookups and `entry`-insertion only, so ordering is
irrelevant to behaviour); panics are modelled as `Option.none`.
-/

/-! ## Colors (stylesheet/color.rs) -/

/-- The fixed 8-color palette (`enum Color`). -/
inductive Color where
  | black
  | blue
  | green
  | red
  | cyan
  | magenta
  | yellow
  | white
deriving DecidableEq, Repr

/-- The `Display` impl for `Color` (lowercase name). -/
def Color.display : Color → List Char
  | .black => "black".toList
  | .blue => "blue".toList
  | .green => "green".toList
  | .red => "red".toList
  | .cyan => "cyan".toList
  | .magenta => "magenta".toList
  | .yellow => "yellow".toList
  | .white => "white".toList

/-- `Color::from_str` (case-insensitive on parse); `Err` is modelled as
`none` (the `From<&str>` impl unwraps it, i.e. panics). -/
def Color.from_str (s : List Char) : Option Color :=
  let t := s.map Char.toLower
  if t = "black".toList then some .black
  else if t = "blue".toList then some .blue
  else if t = "green".toList then some .green
  else if t = "red".toList then some .red
  else if t = "cyan".toList then some .cyan
  else if t = "magenta".toList then some .magenta
  else if t = "yellow".toList then some .yellow
  else if t = "white".toList then some .white
  else none

/-! ## Style attribute values (stylesheet/style.rs)

The Rust `Attribute<V>` wrapper pairs an `AttributeName` with a value;
the name component is fixed per `Style` field at every construction site
(`fg` always carries `AttributeName::Fg`, and `Attribute::update` keeps
`self.name`), so `Style` is modelled with the four values directly. -/

/-- `enum ColorAttribute { Reset, Inherit, Color(Color) }`. -/
inductive ColorAttribute where
  | reset
  | inherit
  | color (c : Color)
deriving DecidableEq, Repr

/-- `ColorAttribute::update`: `Inherit` keeps `self`, anything else wins. -/
def ColorAttribute.update (self other : ColorAttribute) : ColorAttribute :=
  match other with
  | .inherit => self
  | other => other

/-- `ColorAttribute` `Display`. -/
def ColorAttribute.display : ColorAttribute → List Char
  | .reset => "reset".toList
  | .inherit => "inherit".toList
  | .color c => c.display

/-- `ColorAttribute::parse`: `"reset"`, otherwise a palette color
(panic on an unknown color name, modelled as `none`). -/
def ColorAttribute.parse (s : List Char) : Option ColorAttribute :=
  if s = "reset".toList then some .reset
  else (Color.from_str s).map .color

/-- `ColorAttribute::is_default` (`Inherit`). -/
def ColorAttribute.is_default : ColorAttribute → Bool
  | .inherit => true
  | _ => false

/-- `enum WeightAttribute { Normal, Bold, Dim, Inherit }`. -/
inductive WeightAttribute where
  | normal
  | bold
  | dim
  | inherit
deriving DecidableEq, Repr

/-- `WeightAttribute::update`: an explicit weight wins, `Inherit` keeps `self`. -/
def WeightAttribute.update (self other : WeightAttribute) : WeightAttribute :=
  match other with
  | .normal => .normal
  | .bold => .bold
  | .dim => .dim
  | .inherit => self

/-- `WeightAttribute` `Display`. -/
def WeightAttribute.display : WeightAttribute → List Char
  | .normal => "normal".toList
  | .bold => "bold".toList
  | .dim => "dim".toList
  | .inherit => "inherit".toList

/-- `WeightAttribute::parse` (panic on an unknown value, modelled as `none`). -/
def WeightAttribute.parse (s : List Char) : Option WeightAttribute :=
  if s = "normal".toList then some .normal
  else if s = "bold".toList then some .bold
  else if s = "dim".toList then some .dim
  else none

/-- `WeightAttribute::is_default` (`Inherit`). -/
def WeightAttribute.is_default : WeightAttribute → Bool
  | .inherit => true
  | _ => false

/-- `enum BooleanAttribute { On, Off, Inherit }`. -/
inductive BooleanAttribute where
  | on
  | off
  | inherit
deriving DecidableEq, Repr

/-- `BooleanAttribute::update`: `On`/`Off` win, `Inherit` keeps `self`. -/
def BooleanAttribute.update (self other : BooleanAttribute) : BooleanAttribute :=
  match other with
  | .on => .on
  | .off => .off
  | .inherit => self

/-- `BooleanAttribute` `Display`. -/
def BooleanAttribute.display : BooleanAttribute → List Char
  | .on => "true".toList
  | .off => "false".toList
  | .inherit => "inherit".toList

/-- `BooleanAttribute::parse` (panic on an unknown value, modelled as `none`). -/
def BooleanAttribute.parse (s : List Char) : Option BooleanAttribute :=
  if s = "true".toList then some .on
  else if s = "false".toList then some .off
  else none

/-- `BooleanAttribute::is_default` (`Inherit`). -/
def BooleanAttribute.is_default : BooleanAttribute → Bool
  | .inherit => true
  | _ => false

/-! ## Style -/

/-- `struct Style { weight, underline, fg, bg }`. -/
structure Style where
  weight : WeightAttribute
  underline : BooleanAttribute
  fg : ColorAttribute
  bg : ColorAttribute
deriving DecidableEq, Repr

/-- `Style::empty` / `Style::new`: all four attributes `Inherit`. -/
def Style.empty : Style :=
  { weight := .inherit, underline := .inherit, fg := .inherit, bg := .inherit }

/-- `Style::union`: per-attribute `update`, the second argument's
explicit values win. -/
def Style.union (self other : Style) : Style :=
  { weight := self.weight.update other.weight
    underline := self.underline.update other.underline
    fg := self.fg.update other.fg
    bg := self.bg.update other.bg }

/-- Fluent builder `Style::fg`. -/
def Style.withFg (self : Style) (c : Color) : Style := { self with fg := .color c }

/-- Fluent builder `Style::bg`. -/
def Style.withBg (self : Style) (c : Color) : Style := { self with bg := .color c }

/-- Fluent builder `Style::bold`. -/
def Style.bold (self : Style) : Style := { self with weight := .bold }

/-- Fluent builder `Style::dim`. -/
def Style.dim (self : Style) : Style := { self with weight := .dim }

/-- Fluent builder `Style::normal`. -/
def Style.normal (self : Style) : Style := { self with weight := .normal }

/-- Fluent builder `Style::underline`. -/
def Style.withUnderline (self : Style) : Style := { self with underline := .on }

/-- Fluent builder `Style::nounderline`. -/
def Style.nounderline (self : Style) : Style := { self with underline := .off }

/-! ## Stylesheet trie (stylesheet/mod.rs) -/

/-- `enum Segment { Root, Star, Glob, Name(&'static str) }`. -/
inductive Segment where
  | root
  | star
  | glob
  | name (s : String)
deriving DecidableEq, Repr

/-- `From<&'static str> for Segment`: `"**"` is a glob, `"*"` a star,
anything else a literal name. -/
def Segment.fromString (s : String) : Segment :=
  if s = "**" then .glob
  else if s = "*" then .star
  else .name s

/-- Rust `str::split(' ')` on the space character, keeping empty groups. -/
def splitChar (c : Char) : List Char → List (List Char)
  | [] => [[]]
  | x :: xs =>
    if x = c then [] :: splitChar c xs
    else
      match splitChar c xs with
      | [] => [[x]]
      | g :: gs => (x :: g) :: gs

/-- `From<&'static str> for Selector`: split the selector string on
spaces and convert each part to a `Segment`. A selector is its segment
list. -/
def Selector.fromString (s : String) : List Segment :=
  (splitChar ' ' s.toList).map (fun cs => Segment.fromString (String.mk cs))

/-- `struct Node { segment, children: HashMap<Segment, Node>, declarations }`,
with the child map as an association list (one entry per key). -/
inductive Node where
  | mk (segment : Segment) (children : List (Segment × Node)) (declarations : Option Style)

/-- The `segment` field. -/
def Node.segment : Node → Segment
  | .mk s _ _ => s

/-- The `children` field. -/
def Node.children : Node → List (Segment × Node)
  | .mk _ c _ => c

/-- The `declarations` field. -/
def Node.declarations : Node → Option Style
  | .mk _ _ d => d

/-- `HashMap::get` on the child map. -/
def getChild (children : List (Segment × Node)) (s : Segment) : Option Node :=
  match children with
  | [] => none
  | (k, v) :: rest => if k = s then some v else getChild rest s

/-- `HashMap::entry(..).or_insert(..)` followed by storing the updated
child: replace the entry for `s` if present, otherwise append it. -/
def setChild (children : List (Segment × Node)) (s : Segment) (n : Node) :
    List (Segment × Node) :=
  match children with
  | [] => [(s, n)]
  | (k, v) :: rest => if k = s then (s, n) :: rest else (k, v) :: setChild rest s n

/-- `Node::new`. -/
def Node.new (segment : Segment) : Node := .mk segment [] none

/-- `Node::add`: walk/create trie nodes along the selector segments and
store the style at the terminal node. -/
def Node.add : Node → List Segment → Style → Node
  | .mk seg children _, [], style => .mk seg children (some style)
  | .mk seg children decl, s :: rest, style =>
    let child := (getChild children s).getD (Node.new s)
    .mk seg (setChild children s (child.add rest style)) decl

/-- `Node::terminal`: if the node has a glob child, that child is the
terminal node; otherwise the node itself is terminal iff it has no
children. -/
def Node.terminal (n : Node) : Option Node :=
  match getChild n.children .glob with
  | none =>
    match n.children with
    | [] => some n
    | _ => none
  | some glob => some glob

/-- `struct Match` of the up-to-four candidate child traversals. -/
structure Match where
  glob : Option Node
  star : Option Node
  skipped_glob : Option Node
  literal : Option Node

/-- `Node::find_match`: a glob node matches itself; otherwise a glob
child matches, and a literal child of that glob child is the
skipped-glob candidate; a star child and a literal child match. -/
def Node.find_match (n : Node) (nm : String) : Match :=
  let star := getChild n.children .star
  let literal := getChild n.children (.name nm)
  if n.segment = .glob then
    { glob := some n, star, skipped_glob := none, literal }
  else
    let glob := getChild n.children .glob
    let skipped_glob :=
      match glob with
      | none => none
      | some g => getChild g.children (.name nm)
    { glob, star, skipped_glob, literal }

/-- Free function `union` on `Option<Style>`: absence is the identity,
otherwise `Style::union` (the right argument's explicit values win). -/
def union : Option Style → Option Style → Option Style
  | none, none => none
  | some left, none => some left
  | none, some right => some right
  | some left, some right => some (left.union right)

/-- `Node::find`: on an empty path return the terminal node's style; on
a nonempty path merge the glob, star, skipped-glob and literal
candidates (in that ascending precedence order) via `union`, each
recursing with the path advanced by one segment. -/
def Node.find : Node → List String → Option Style
  | n, [] =>
    match n.terminal with
    | none => none
    | some t => t.declarations
  | n, next :: rest =>
    let m := n.find_match next
    let style : Option Style := none
    let style :=
      match m.glob with
      | none => style
      | some g => union style (g.find rest)
    let style :=
      match m.star with
      | none => style
      | some s => union style (s.find rest)
    let style :=
      match m.skipped_glob with
      | none => style
      | some sg => union style (sg.find rest)
    let style :=
      match m.literal with
      | none => style
      | some l => union style (l.find rest)
    style

/-- `struct Stylesheet { styles: Node }`. -/
structure Stylesheet where
  styles : Node

/-- `Stylesheet::new`: a root node. -/
def Stylesheet.new : Stylesheet := ⟨Node.new .root⟩

/-- `Stylesheet::add`: add the selector and style to the trie. -/
def Stylesheet.add (self : Stylesheet) (sel : List Segment) (style : Style) : Stylesheet :=
  ⟨self.styles.add sel style⟩

/-- `Stylesheet::add` with a selector string, as in
`Stylesheet::new().add("message ** code", ...)`. -/
def Stylesheet.addS (self : Stylesheet) (sel : String) (style : Style) : Stylesheet :=
  self.add (Selector.fromString sel) style

/-- `Stylesheet::get`: find the style for a section path. -/
def Stylesheet.get (self : Stylesheet) (names : List String) : Option Style :=
  self.styles.find names

/-! ## Style-string parsing (stylesheet/style.rs, `StyleString` iterator
and `Style::from_stylesheet`) -/

/-- Rust `str::find(c)` followed by slicing `[..i]` and `[i+1..]`:
split a character list at the first occurrence of `c`, or `none` when
`c` does not occur. -/
def findSplit (c : Char) : List Char → Option (List Char × List Char)
  | [] => none
  | x :: xs =>
    if x = c then some ([], xs)
    else (findSplit c xs).map (fun p => (x :: p.1, p.2))

/-- Rust `str::trim`: drop leading and trailing whitespace. -/
def trimChars (cs : List Char) : List Char :=
  ((cs.dropWhile Char.isWhitespace).reverse.dropWhile Char.isWhitespace).reverse

/-- One `StyleString::next` step consumes at least the `:` character,
so the remaining input shrinks every iteration; `rest.length` is
therefore enough fuel to run the iterator to completion. The
fuel-exhausted case with a nonempty remainder is unreachable. -/
def styleStringGo : Nat → List Char → Option (List (List Char × List Char))
  | _, [] => some []
  | 0, _ :: _ => none
  | fuel + 1, x :: xs =>
    match findSplit ':' (x :: xs) with
    | none => none
    | some (nm, afterColon) =>
      match findSplit ';' afterColon with
      | some (value, rest') =>
        (styleStringGo fuel rest').map (fun l => (trimChars nm, trimChars value) :: l)
      | none => some [(trimChars nm, trimChars afterColon)]

/-- The `StyleString` iterator, run to completion: split the input into
`(key, value)` pairs at `:` and `;`, trimming each part; a missing `:`
in a nonempty remainder is a panic (`none`). -/
def styleStringPairs (rest : List Char) : Option (List (List Char × List Char)) :=
  styleStringGo rest.length rest

/-- `enum AttributeName { Fg, Bg, Weight, Underline }`. -/
inductive AttributeName where
  | fg
  | bg
  | weight
  | underline
deriving DecidableEq, Repr

/-- `From<&str> for AttributeName` (panic on an unknown key, modelled
as `none`). -/
def AttributeName.fromChars (s : List Char) : Option AttributeName :=
  if s = "fg".toList then some .fg
  else if s = "bg".toList then some .bg
  else if s = "weight".toList then some .weight
  else if s = "underline".toList then some .underline
  else none

/-- One iteration of the `Style::from_stylesheet` loop: replace the
attribute named by the key with the parsed value. -/
def applyPair (st : Style) (p : List Char × List Char) : Option Style :=
  match AttributeName.fromChars p.1 with
  | none => none
  | some .fg => (ColorAttribute.parse p.2).map (fun v => { st with fg := v })
  | some .bg => (ColorAttribute.parse p.2).map (fun v => { st with bg := v })
  | some .weight => (WeightAttribute.parse p.2).map (fun v => { st with weight := v })
  | some .underline => (BooleanAttribute.parse p.2).map (fun v => { st with underline := v })

/-- The `Style::from_stylesheet` loop over all parsed pairs. -/
def applyPairs : Style → List (List Char × List Char) → Option Style
  | st, [] => some st
  | st, p :: rest => (applyPair st p).bind (fun st' => applyPairs st' rest)

/-- `Style::from_stylesheet`: start from all-`Inherit` and apply each
`key: value` pair of the style string; any panic (malformed string,
unknown key or value) is modelled as `none`. -/
def Style.from_stylesheet (input : List Char) : Option Style :=
  (styleStringPairs input).bind (applyPairs Style.empty)

/-! ## Style serialization (`impl fmt::Display for Style`) -/

/-- The `has_prev`/`space` logic of the `Display` impl: join the
rendered attribute fragments with single spaces. -/
def joinSpaced : List (List Char) → List Char
  | [] => []
  | p :: rest => p ++ (rest.map (fun q => ' ' :: q)).flatten

/-- The `name=value` fragments the `Display` impl writes: one per
attribute that has a value (is not `Inherit`), in the order fg, bg,
weight, underline. -/
def Style.displayParts (s : Style) : List (List Char) :=
  (if s.fg.is_default then [] else ["fg=".toList ++ s.fg.display]) ++
  (if s.bg.is_default then [] else ["bg=".toList ++ s.bg.display]) ++
  (if s.weight.is_default then [] else ["weight=".toList ++ s.weight.display]) ++
  (if s.underline.is_default then [] else ["underline=".toList ++ s.underline.display])

/-- `impl fmt::Display for Style`: `Style \x7b...\x7d` listing the
space-separated `name=value` fragments. -/
def Style.display (s : Style) : List Char :=
  "Style \x7b".toList ++ joinSpaced (Style.displayParts s) ++ "\x7d".toList

/-! ## Document tree (document.rs) -/

/-- `enum Node { Text, OpenSection, CloseSection, Newline }` of
`document.rs` (named `DocNode` here because the trie node is also
called `Node` in the source). -/
inductive DocNode where
  | text (s : String)
  | openSection (nm : String)
  | closeSection
  | newline
deriving DecidableEq, Repr

/-- `struct Document { tree: Option<Vec<Node>> }`. -/
structure Document where
  tree : Option (List DocNode)
deriving DecidableEq, Repr

/-- `Document::empty`. -/
def Document.empty : Document := ⟨none⟩

/-- `Document::add_node`: initialize the tree if absent and push. -/
def Document.add_node (d : Document) (n : DocNode) : Document :=
  ⟨some (d.tree.getD [] ++ [n])⟩

/-- `Document::extend_nodes`: append the nodes when there are any. -/
def Document.extend_nodes (d : Document) (other : List DocNode) : Document :=
  if other.length > 0 then ⟨some (d.tree.getD [] ++ other)⟩ else d

/-- `Document::extend`: graft a fragment document onto this one. -/
def Document.extend (d fragment : Document) : Document :=
  match d.tree, fragment.tree with
  | some _, some nodes => d.extend_nodes nodes
  | some _, none => d
  | none, some _ => fragment
  | none, none => d

/-- The node sequence of a document (empty when the tree is `None`;
the two are observably equivalent per the source comment). -/
def Document.nodes (d : Document) : List DocNode := d.tree.getD []

/-! ## Renderable combinators (render.rs, helpers.rs, component.rs)

A deep embedding of documents "built only via the provided
combinators": each constructor is one of the source's renderable units,
and `render` is its `Render::render` impl. -/

/-- The closed combinator language: `Empty`, displayable text, `add`
sequencing (`Combine`), `Section`, `Line`, `Each`, `Join`, `IfSome`.
`Each`/`Join` items carry the body callback's result for that item. -/
inductive Renderable where
  | Empty
  | Text (s : String)
  | Combine (left right : Renderable)
  | Section (nm : String) (body : Renderable)
  | Line (body : Renderable)
  | Each (items : List Renderable)
  | Join (joiner : String) (items : List Renderable)
  | IfSome (o : Option Renderable)

mutual

/-- `Render::render` for each combinator: `Empty` is the identity;
text adds a `Text` node; `Combine` renders left then right; `Section`
builds `OpenSection`, body, `CloseSection` in a fresh document and
grafts it via `extend`; `Line` renders the body then a `Newline`;
`Each` folds the items in order; `Join` likewise, inserting the joiner
as text between consecutive items; `IfSome` renders nothing or the
value. -/
def render : Renderable → Document → Document
  | .Empty, d => d
  | .Text s, d => d.add_node (.text s)
  | .Combine left right, d => render right (render left d)
  | .Section nm body, d =>
    d.extend ((render body (Document.empty.add_node (.openSection nm))).add_node .closeSection)
  | .Line body, d => (render body d).add_node .newline
  | .Each items, d => eachAppend items d
  | .Join joiner items, d => joinAppend joiner items true d
  | .IfSome o, d =>
    match o with
    | none => d
    | some r => render r d

/-- `Each::append`: invoke the block on each item in order. -/
def eachAppend : List Renderable → Document → Document
  | [], d => d
  | r :: rs, d => eachAppend rs (render r d)

/-- `Join::append` with its `is_first` flag: before every item except
the first, add the joiner (a `&str`, rendered as a `Text` node). -/
def joinAppend : String → List Renderable → Bool → Document → Document
  | _, [], _, d => d
  | j, r :: rs, is_first, d =>
    let d := if is_first then d else d.add_node (.text j)
    joinAppend j rs false (render r d)

end

/-- `Document::with` (render into an empty document). -/
def Document.with (r : Renderable) : Document := render r Document.empty

/-! ## Terminal writer (document.rs, `Document::write_with`) -/

/-- One output action of the underlying `WriteColor` writer. -/
inductive OutEvent where
  | reset
  | setStyle (s : Style)
  | text (s : String)
deriving DecidableEq, Repr

/-- The `write_with` node loop: `nesting` is the stack of open section
names (pushed at the end); `Text` resolves a style for the current
nesting (set it, or reset when none) and writes the text, skipping
empty strings; `CloseSection` pops, panicking (`none`) on an empty
stack; `Newline` resets and writes a newline. -/
def writeNodes (sheet : Stylesheet) :
    List DocNode → List String → List OutEvent → Option (List OutEvent)
  | [], _, out => some out
  | .text s :: rest, nesting, out =>
    if s.length ≠ 0 then
      let ev :=
        match sheet.get nesting with
        | none => OutEvent.reset
        | some style => OutEvent.setStyle style
      writeNodes sheet rest nesting (out ++ [ev, .text s])
    else writeNodes sheet rest nesting out
  | .openSection nm :: rest, nesting, out => writeNodes sheet rest (nesting ++ [nm]) out
  | .closeSection :: rest, nesting, out =>
    match nesting with
    | [] => none
    | _ => writeNodes sheet rest nesting.dropLast out
  | .newline :: rest, nesting, out => writeNodes sheet rest nesting (out ++ [.reset, .text "\n"])

/-- `Document::write_with`: reset, then process the nodes (an absent
tree writes nothing further). -/
def Document.write_with (d : Document) (sheet : Stylesheet) : Option (List OutEvent) :=
  match d.tree with
  | none => some [.reset]
  | some nodes => writeNodes sheet nodes [] [.reset]

/-- The text a `no_color` buffer accumulates from the output events
(style changes produce no bytes). -/
def eventsText (evs : List OutEvent) : String :=
  evs.foldl
    (fun acc ev =>
      match ev with
      | .text s => acc ++ s
      | _ => acc)
    ""

/-- `Document::to_string`: write with an empty stylesheet into a
colorless buffer and collect the text. -/
def Document.to_string (d : Document) : Option String :=
  (d.write_with Stylesheet.new).map eventsText

/-! ## Open/close counting for the balanced-nesting invariant -/

/-- Whether a node is an `OpenSection`. -/
def DocNode.isOpen : DocNode → Bool
  | .openSection _ => true
  | _ => false

/-- Whether a node is a `CloseSection`. -/
def DocNode.isClose : DocNode → Bool
  | .closeSection => true
  | _ => false

/-- Number of `OpenSection` nodes. -/
def opens (l : List DocNode) : Nat := l.countP DocNode.isOpen

/-- Number of `CloseSection` nodes. -/
def closes (l : List DocNode) : Nat := l.countP DocNode.isClose

/-! ## Node fragments of renderables

`render` only ever appends to its target document; `fragNodes r` is the
appended node sequence, proved equal to `(render r Document.empty).nodes`
below. -/

mutual

/-- The node sequence a renderable appends to any document. -/
def fragNodes : Renderable → List DocNode
  | .Empty => []
  | .Text s => [.text s]
  | .Combine left right => fragNodes left ++ fragNodes right
  | .Section nm body => .openSection nm :: (fragNodes body ++ [.closeSection])
  | .Line body => fragNodes body ++ [.newline]
  | .Each items => eachFrag items
  | .Join j items => joinFrag j items
  | .IfSome none => []
  | .IfSome (some r) => fragNodes r

/-- Node sequence of `Each` over a list of item fragments. -/
def eachFrag : List Renderable → List DocNode
  | [] => []
  | r :: rs => fragNodes r ++ eachFrag rs

/-- Node sequence of `Join` (first item unprefixed). -/
def joinFrag (j : String) : List Renderable → List DocNode
  | [] => []
  | r :: rs => fragNodes r ++ joinTailFrag j rs

/-- Node sequence of the non-first `Join` items, each prefixed by the
joiner text. -/
def joinTailFrag (j : String) : List Renderable → List DocNode
  | [] => []
  | r :: rs => .text j :: (fragNodes r ++ joinTailFrag j rs)

end

/-- Modelled from the spec: the node sequence `Join` is claimed to
produce — each item's fragment in input order with the joiner text
exactly between consecutive items, never leading or trailing. -/
def joinSpecNodes (j : String) (frags : List (List DocNode)) : List DocNode :=
  (List.intersperse [DocNode.text j] frags).flatten

/-- Balanced nesting: every prefix has at least as many `OpenSection`
as `CloseSection` nodes, and the whole sequence has exactly as many. -/
def Bal (l : List DocNode) : Prop :=
  (∀ k, closes (l.take k) ≤ opens (l.take k)) ∧ opens l = closes l


/-! ## Lemmas: documents append-only -/

theorem Document.nodes_add_node (d : Document) (n : DocNode) :
    (d.add_node n).nodes = d.nodes ++ [n] := rfl

theorem Document.nodes_extend_nodes (d : Document) (other : List DocNode) :
    (d.extend_nodes other).nodes = d.nodes ++ other := by
  unfold Document.extend_nodes
  by_cases h : other.length > 0
  · rw [if_pos h]; rfl
  · rw [if_neg h]
    have ho : other = [] := by
      cases other with
      | nil => rfl
      | cons x xs => simp at h
    subst ho
    simp

theorem Document.nodes_extend (d f : Document) :
    (d.extend f).nodes = d.nodes ++ f.nodes := by
  unfold Document.extend
  rcases hd : d.tree with _ | l <;> rcases hf : f.tree with _ | m
  · simp [Document.nodes, hd, hf]
  · simp [Document.nodes, hd, hf]
  · simp [Document.nodes, hd, hf]
  · rw [Document.nodes_extend_nodes]
    simp [Document.nodes, hf]

mutual

theorem render_nodes : ∀ (r : Renderable) (d : Document),
    (render r d).nodes = d.nodes ++ fragNodes r
  | .Empty, d => by simp [render, fragNodes]
  | .Text s, d => by simp [render, fragNodes, Document.nodes_add_node]
  | .Combine left right, d => by
    rw [render, fragNodes, render_nodes right (render left d), render_nodes left d,
      List.append_assoc]
  | .Section nm body, d => by
    rw [render, fragNodes, Document.nodes_extend, Document.nodes_add_node,
      render_nodes body (Document.empty.add_node (.openSection nm))]
    simp [Document.nodes, Document.empty, Document.add_node]
  | .Line body, d => by
    rw [render, fragNodes, Document.nodes_add_node, render_nodes body d, List.append_assoc]
  | .Each items, d => by
    rw [render, fragNodes, eachAppend_nodes items d]
  | .Join j items, d => by
    rw [render, fragNodes, joinAppend_nodes j items true d]
    simp
  | .IfSome none, d => by simp [render, fragNodes]
  | .IfSome (some r), d => by
    rw [render, fragNodes]
    exact render_nodes r d

theorem eachAppend_nodes : ∀ (items : List Renderable) (d : Document),
    (eachAppend items d).nodes = d.nodes ++ eachFrag items
  | [], d => by simp [eachAppend, eachFrag]
  | r :: rs, d => by
    rw [eachAppend, eachFrag, eachAppend_nodes rs (render r d), render_nodes r d,
      List.append_assoc]

theorem joinAppend_nodes : ∀ (j : String) (items : List Renderable) (first : Bool)
    (d : Document), (joinAppend j items first d).nodes =
      d.nodes ++ (if first then joinFrag j items else joinTailFrag j items)
  | j, [], first, d => by cases first <;> simp [joinAppend, joinFrag, joinTailFrag]
  | j, r :: rs, true, d => by
    have h : joinAppend j (r :: rs) true d = joinAppend j rs false (render r d) := by
      rw [joinAppend]
      simp
    rw [h, joinAppend_nodes j rs false (render r d), render_nodes r d, List.append_assoc]
    simp [joinFrag]
  | j, r :: rs, false, d => by
    have h : joinAppend j (r :: rs) false d =
        joinAppend j rs false (render r (Document.add_node d (.text j))) := by
      rw [joinAppend]
      simp
    rw [h, joinAppend_nodes j rs false (render r (Document.add_node d (.text j))),
      render_nodes r (Document.add_node d (.text j)), Document.nodes_add_node]
    simp [joinTailFrag]

end

/-! ## Lemmas: balanced nesting -/

theorem Bal_nil : Bal [] := by
  constructor
  · intro k; simp [closes, opens]
  · rfl

theorem Bal_neutral (n : DocNode) (ho : n.isOpen = false) (hc : n.isClose = false) :
    Bal [n] := by
  constructor
  · intro k
    cases k with
    | zero => simp [closes, opens]
    | succ k => simp [closes, opens, List.countP_cons, ho, hc]
  · simp [closes, opens, List.countP_cons, ho, hc]

theorem opens_append (l m : List DocNode) : opens (l ++ m) = opens l + opens m :=
  List.countP_append _ _ _

theorem closes_append (l m : List DocNode) : closes (l ++ m) = closes l + closes m :=
  List.countP_append _ _ _

theorem opens_cons_open (nm : String) (t : List DocNode) :
    opens (.openSection nm :: t) = opens t + 1 := by
  simp [opens, List.countP_cons, DocNode.isOpen]

theorem closes_cons_open (nm : String) (t : List DocNode) :
    closes (.openSection nm :: t) = closes t := by
  simp [closes, List.countP_cons, DocNode.isClose]

theorem opens_close_take (j : Nat) :
    opens (([DocNode.closeSection] : List DocNode).take j) = 0 := by
  cases j with
  | zero => simp [opens]
  | succ i => simp [opens, List.countP_cons, DocNode.isOpen]

theorem closes_close_take (j : Nat) :
    closes (([DocNode.closeSection] : List DocNode).take j) ≤ 1 := by
  cases j with
  | zero => simp [closes]
  | succ i => simp [closes, List.countP_cons, DocNode.isClose]

theorem Bal_append {l m : List DocNode} (hl : Bal l) (hm : Bal m) : Bal (l ++ m) := by
  constructor
  · intro k
    rw [List.take_append_eq_append_take]
    simp only [closes, opens, List.countP_append]
    exact Nat.add_le_add (hl.1 k) (hm.1 (k - l.length))
  · simp only [closes, opens, List.countP_append]
    rw [← closes, ← opens, ← closes, ← opens, hl.2, hm.2]

theorem Bal_section (nm : String) {l : List DocNode} (hl : Bal l) :
    Bal (.openSection nm :: (l ++ [.closeSection])) := by
  constructor
  · intro k
    cases k with
    | zero => simp [closes, opens]
    | succ k =>
      rw [List.take_succ_cons, closes_cons_open, opens_cons_open,
        List.take_append_eq_append_take, closes_append, opens_append, opens_close_take]
      have h1 := hl.1 k
      have h2 := closes_close_take (k - l.length)
      omega
  · rw [closes_cons_open, opens_cons_open, closes_append, opens_append]
    have ho1 : opens ([DocNode.closeSection] : List DocNode) = 0 := by
      simp [opens, List.countP_cons, DocNode.isOpen]
    have h2 : closes ([DocNode.closeSection] : List DocNode) = 1 := by
      simp [closes, List.countP_cons, DocNode.isClose]
    have := hl.2
    omega

mutual

theorem frag_bal : ∀ r : Renderable, Bal (fragNodes r)
  | .Empty => by rw [fragNodes]; exact Bal_nil
  | .Text s => by rw [fragNodes]; exact Bal_neutral (.text s) rfl rfl
  | .Combine left right => by
    rw [fragNodes]; exact Bal_append (frag_bal left) (frag_bal right)
  | .Section nm body => by
    rw [fragNodes]; exact Bal_section nm (frag_bal body)
  | .Line body => by
    rw [fragNodes]; exact Bal_append (frag_bal body) (Bal_neutral DocNode.newline rfl rfl)
  | .Each items => by rw [fragNodes]; exact eachFrag_bal items
  | .Join j items => by rw [fragNodes]; exact joinFrag_bal j items
  | .IfSome none => by rw [fragNodes]; exact Bal_nil
  | .IfSome (some r) => by rw [fragNodes]; exact frag_bal r

theorem eachFrag_bal : ∀ items : List Renderable, Bal (eachFrag items)
  | [] => by rw [eachFrag]; exact Bal_nil
  | r :: rs => by rw [eachFrag]; exact Bal_append (frag_bal r) (eachFrag_bal rs)

theorem joinFrag_bal : ∀ (j : String) (items : List Renderable), Bal (joinFrag j items)
  | j, [] => by rw [joinFrag]; exact Bal_nil
  | j, r :: rs => by rw [joinFrag]; exact Bal_append (frag_bal r) (joinTailFrag_bal j rs)

theorem joinTailFrag_bal : ∀ (j : String) (items : List Renderable), Bal (joinTailFrag j items)
  | j, [] => by rw [joinTailFrag]; exact Bal_nil
  | j, r :: rs => by
    rw [joinTailFrag]
    exact Bal_append (Bal_neutral (DocNode.text j) rfl rfl) (Bal_append (frag_bal r) (joinTailFrag_bal j rs))

end

/-! ## Lemmas: the writer succeeds on balanced input -/

theorem prefix_shift {n : DocNode} {rest : List DocNode} {c : Nat}
    (h : ∀ k, closes ((n :: rest).take k) ≤ opens ((n :: rest).take k) + c) (k : Nat) :
    closes (rest.take k) + (if n.isClose then 1 else 0) ≤
      opens (rest.take k) + (if n.isOpen then 1 else 0) + c := by
  have hk := h (k + 1)
  rw [List.take_succ_cons] at hk
  have hc : closes (n :: rest.take k) = closes (rest.take k) + (if n.isClose then 1 else 0) := by
    simp [closes, List.countP_cons]
  have ho : opens (n :: rest.take k) = opens (rest.take k) + (if n.isOpen then 1 else 0) := by
    simp [opens, List.countP_cons]
  omega

theorem writeNodes_total (sheet : Stylesheet) :
    ∀ (nodes : List DocNode) (nesting : List String) (out : List OutEvent),
      (∀ k, closes (nodes.take k) ≤ opens (nodes.take k) + nesting.length) →
      ∃ res, writeNodes sheet nodes nesting out = some res := by
  intro nodes
  induction nodes with
  | nil => exact fun nesting out _ => ⟨out, rfl⟩
  | cons n rest ih =>
    intro nesting out h
    cases n with
    | text s =>
      have h' : ∀ k, closes (rest.take k) ≤ opens (rest.take k) + nesting.length := by
        intro k
        have hp := prefix_shift h k
        simp [DocNode.isClose, DocNode.isOpen] at hp
        omega
      rw [writeNodes]
      by_cases hs : s.length ≠ 0
      · rw [if_pos hs]
        exact ih _ _ h'
      · rw [if_neg hs]
        exact ih _ _ h'
    | openSection nm =>
      have h' : ∀ k, closes (rest.take k) ≤ opens (rest.take k) + (nesting ++ [nm]).length := by
        intro k
        have hp := prefix_shift h k
        simp [DocNode.isClose, DocNode.isOpen] at hp
        simp [List.length_append]
        omega
      rw [writeNodes]
      exact ih _ _ h'
    | closeSection =>
      have h1 := h 1
      rw [show ((DocNode.closeSection :: rest).take 1) = [DocNode.closeSection] from rfl] at h1
      have hc1 : closes ([DocNode.closeSection]) = 1 := by
        simp [closes, List.countP_cons, DocNode.isClose]
      have ho1 : opens ([DocNode.closeSection]) = 0 := by
        simp [opens, List.countP_cons, DocNode.isOpen]
      cases hnest : nesting with
      | nil =>
        subst hnest
        simp [hc1, ho1] at h1
      | cons a as =>
        subst hnest
        rw [writeNodes]
        have h' : ∀ k, closes (rest.take k) ≤
            opens (rest.take k) + ((a :: as).dropLast).length := by
          intro k
          have hp := prefix_shift h k
          simp [DocNode.isClose, DocNode.isOpen] at hp
          have hlen : ((a :: as).dropLast).length = as.length := by
            simp
          have hlen2 : (a :: as).length = as.length + 1 := by simp
          rw [hlen]
          omega
        exact ih _ _ h'
        simp
    | newline =>
      have h' : ∀ k, closes (rest.take k) ≤ opens (rest.take k) + nesting.length := by
        intro k
        have hp := prefix_shift h k
        simp [DocNode.isClose, DocNode.isOpen] at hp
        omega
      rw [writeNodes]
      exact ih _ _ h'

/-! ## Lemmas: trie children and glob nodes -/

theorem union_none_left (x : Option Style) : union none x = x := by cases x <;> rfl

theorem getChild_setChild (ch : List (Segment × Node)) (s : Segment) (n : Node) :
    getChild (setChild ch s n) s = some n := by
  induction ch with
  | nil => simp [setChild, getChild]
  | cons p rest ih =>
    obtain ⟨k, v⟩ := p
    by_cases hk : k = s
    · simp [setChild, getChild, hk]
    · simp only [setChild, getChild, if_neg hk]
      exact ih

theorem setChild_setChild (ch : List (Segment × Node)) (s : Segment) (x y : Node) :
    setChild (setChild ch s x) s y = setChild ch s y := by
  induction ch with
  | nil => simp [setChild]
  | cons p rest ih =>
    obtain ⟨k, v⟩ := p
    by_cases hk : k = s
    · simp [setChild, hk]
    · simp only [setChild, if_neg hk]
      rw [ih]

theorem glob_self_find (s : Style) : ∀ (r : List String),
    Node.find (.mk .glob [] (some s)) r = some s
  | [] => rfl
  | x :: r => by
    show union none (Node.find (.mk .glob [] (some s)) r) = some s
    rw [glob_self_find s r]
    rfl

/-! ## Lemmas: joiner fragments as interspersion -/

theorem joinTailFrag_eq (j : String) : ∀ (items : List Renderable),
    joinTailFrag j items = (items.map (fun r => DocNode.text j :: fragNodes r)).flatten
  | [] => rfl
  | r :: rs => by
    rw [joinTailFrag, joinTailFrag_eq j rs]
    simp

theorem flatten_intersperse_cons (sep : List DocNode) :
    ∀ (f : List DocNode) (fs : List (List DocNode)),
      (List.intersperse sep (f :: fs)).flatten = f ++ (fs.map (fun g => sep ++ g)).flatten
  | f, [] => by simp
  | f, g :: gs => by
    rw [show List.intersperse sep (f :: g :: gs) =
        f :: sep :: List.intersperse sep (g :: gs) from rfl]
    rw [List.flatten_cons, List.flatten_cons, flatten_intersperse_cons sep g gs]
    simp

theorem joinFrag_eq_spec (j : String) (items : List Renderable) :
    joinFrag j items = joinSpecNodes j (items.map fragNodes) := by
  cases items with
  | nil => rfl
  | cons r rs =>
    rw [joinFrag, joinTailFrag_eq j rs, joinSpecNodes, List.map_cons,
      flatten_intersperse_cons [DocNode.text j] (fragNodes r) (rs.map fragNodes),
      List.map_map]
    rfl

/-! ## Lemmas: the Display serialization cannot be re-parsed -/

theorem findSplit_of_not_mem {c : Char} : ∀ {l : List Char}, c ∉ l → findSplit c l = none := by
  intro l
  induction l with
  | nil => intro _; rfl
  | cons x xs ih =>
    intro h
    rw [List.mem_cons] at h
    push_neg at h
    rw [findSplit, if_neg (fun he => h.1 he.symm), ih h.2]
    rfl

theorem styleStringPairs_none {l : List Char} (hne : l ≠ []) (hmem : (':' : Char) ∉ l) :
    styleStringPairs l = none := by
  rw [styleStringPairs]
  cases l with
  | nil => exact absurd rfl hne
  | cons x xs =>
    rw [show (x :: xs).length = xs.length + 1 from rfl, styleStringGo,
      findSplit_of_not_mem hmem]

theorem mem_ite_nil {α : Type} {c : Prop} [Decidable c] {x p : α}
    (h : p ∈ (if c then ([] : List α) else [x])) : p = x := by
  split at h
  · simp at h
  · simpa using h

theorem colon_not_mem_color (a : ColorAttribute) : (':' : Char) ∉ a.display := by
  cases a with
  | color c => cases c <;> decide
  | reset => decide
  | inherit => decide

theorem colon_not_mem_weight (a : WeightAttribute) : (':' : Char) ∉ a.display := by
  cases a <;> decide

theorem colon_not_mem_boolean (a : BooleanAttribute) : (':' : Char) ∉ a.display := by
  cases a <;> decide

theorem colon_not_mem_joinSpaced {parts : List (List Char)}
    (h : ∀ p ∈ parts, (':' : Char) ∉ p) : (':' : Char) ∉ joinSpaced parts := by
  cases parts with
  | nil => simp [joinSpaced]
  | cons p rest =>
    rw [joinSpaced, List.mem_append]
    push_neg
    constructor
    · exact h p (by simp)
    · intro hc
      rw [List.mem_flatten] at hc
      obtain ⟨l, hl, hcl⟩ := hc
      rw [List.mem_map] at hl
      obtain ⟨q, hq, rfl⟩ := hl
      rw [List.mem_cons] at hcl
      rcases hcl with hcl | hcl
      · exact absurd hcl (by decide)
      · exact h q (by simp [hq]) hcl

theorem colon_not_mem_displayParts (s : Style) :
    ∀ p ∈ Style.displayParts s, (':' : Char) ∉ p := by
  intro p hp
  rw [Style.displayParts, List.mem_append, List.mem_append, List.mem_append] at hp
  rcases hp with ((h1 | h2) | h3) | h4
  · rw [mem_ite_nil h1]
    intro hc
    rw [List.mem_append] at hc
    rcases hc with hc | hc
    · exact absurd hc (by decide)
    · exact colon_not_mem_color _ hc
  · rw [mem_ite_nil h2]
    intro hc
    rw [List.mem_append] at hc
    rcases hc with hc | hc
    · exact absurd hc (by decide)
    · exact colon_not_mem_color _ hc
  · rw [mem_ite_nil h3]
    intro hc
    rw [List.mem_append] at hc
    rcases hc with hc | hc
    · exact absurd hc (by decide)
    · exact colon_not_mem_weight _ hc
  · rw [mem_ite_nil h4]
    intro hc
    rw [List.mem_append] at hc
    rcases hc with hc | hc
    · exact absurd hc (by decide)
    · exact colon_not_mem_boolean _ hc

theorem colon_not_mem_display (s : Style) : (':' : Char) ∉ Style.display s := by
  rw [Style.display]
  intro h
  rw [List.mem_append, List.mem_append] at h
  rcases h with (hA | hJ) | hB
  · exact absurd hA (by decide)
  · exact colon_not_mem_joinSpaced (colon_not_mem_displayParts s) hJ
  · exact absurd hB (by decide)

theorem display_ne_nil (s : Style) : Style.display s ≠ [] := by
  rw [Style.display]
  intro h
  rw [List.append_eq_nil, List.append_eq_nil] at h
  exact absurd h.1.1 (by decide)

/-! ## Per-attribute update characterization -/

theorem color_update_eq (a b : ColorAttribute) :
    a.update b = if b = .inherit then a else b := by cases b <;> rfl

theorem weight_update_eq (a b : WeightAttribute) :
    a.update b = if b = .inherit then a else b := by cases b <;> rfl

theorem boolean_update_eq (a b : BooleanAttribute) :
    a.update b = if b = .inherit then a else b := by cases b <;> rfl

/-! ## Claim theorems -/

/-- C1: for the stylesheet built by adding `"message ** code"` with
{fg: blue, weight: bold}, `"message header * code"` with
{underline: true, bg: black}, and `"message header error code"` with
{fg: red, underline: false}, `get` on
`["message","header","error","code"]` returns exactly
{fg: red, bg: black, weight: bold, underline: false}: per attribute the
more specific rule (literal > star > glob) wins, and attributes set only
by a lower-precedence rule survive the merge. -/
theorem get_priority_example :
    (((Stylesheet.new.addS "message ** code" (Style.empty.withFg .blue |>.bold)).addS
        "message header * code" (Style.empty.withUnderline.withBg .black)).addS
        "message header error code" (Style.empty.withFg .red |>.nounderline)).get
      ["message", "header", "error", "code"] =
    some { weight := .bold, underline := .off, fg := .color .red, bg := .color .black } := by
  rfl

/-- C2 (counterexample): contrary to the claim that a `**` can match
zero path segments regardless of which segment kind follows it, the
selector `"a ** * b"` does not match the path `["a","x","b"]`: the glob
candidate in `Node::find` recurses with the path advanced by one
segment, so the glob absorbs `"x"`, leaving `*` with `"b"` and the
literal `b` with nothing. -/
theorem glob_star_zero_counterexample :
    (Stylesheet.new.addS "a ** * b" (Style.empty.withFg .red)).get ["a", "x", "b"] = none := by
  rfl

/-- C2 (amended): the glob candidate recursion in `Node::find` always
advances the path by one segment, so a `**` followed by `*` can not
match zero segments (`"a ** * b"` does not match `["a","x","b"]`); a
`**` matches zero segments only via the skipped-glob candidate, when it
is immediately followed by a literal matching the current segment
(`"a ** b"` matches `["a","b"]`), or as a terminal (`"a **"` matches
`["a"]`). -/
theorem glob_candidate_advances (s : Style) :
    (Stylesheet.new.addS "a ** * b" s).get ["a", "x", "b"] = none ∧
    (Stylesheet.new.addS "a ** b" s).get ["a", "b"] = some s ∧
    (Stylesheet.new.addS "a **" s).get ["a"] = some s :=
  ⟨rfl, rfl, rfl⟩

/-- C3 (counterexample): contrary to the claim that in every stylesheet
containing a trailing-glob selector `get` returns that selector's style
on every extension of its prefix, adding the further selector
`"a b c ** d"` next to `"a b c **"` makes `get` on
`["a","b","c","d","e"]` return `none`: the glob node now has a child,
so it is no longer terminal. -/
theorem trailing_glob_extension_counterexample :
    ((Stylesheet.new.addS "a b c **" (Style.empty.withFg .red)).addS "a b c ** d"
        (Style.empty.withFg .blue)).get ["a", "b", "c", "d", "e"] = none := by
  rfl

/-- C3 (amended): for a stylesheet whose only rule is the trailing-glob
selector `"a b c **"`, `get` returns that rule's style on the path
`["a","b","c"]` (the glob absorbing zero segments as a terminal) and on
every longer extension of it (the glob absorbing all remaining
segments). -/
theorem trailing_glob_single_rule (s : Style) (rest : List String) :
    (Stylesheet.new.addS "a b c **" s).get ("a" :: "b" :: "c" :: rest) = some s := by
  have hC : ∀ (r : List String),
      Node.find (.mk (.name "c") [(.glob, .mk .glob [] (some s))] none) r = some s := by
    intro r
    cases r with
    | nil => rfl
    | cons x r2 =>
      show union none (Node.find (.mk .glob [] (some s)) r2) = some s
      rw [glob_self_find s r2]
      rfl
  show union none (union none (union none
    (Node.find (.mk (.name "c") [(.glob, .mk .glob [] (some s))] none) rest))) = some s
  rw [hC rest]
  rfl

/-- C4: `union` on optional styles treats absence as the identity, and
when both sides are present each of the four attributes independently
takes the second argument's value unless it is `Inherit`, in which case
the first argument's value shows through; `union` is not commutative
(the second, higher-precedence argument wins per attribute). -/
theorem union_spec :
    (∀ b : Option Style, union none b = b) ∧
    (∀ a : Option Style, union a none = a) ∧
    (∀ a b : Style, union (some a) (some b) = some
      { weight := if b.weight = .inherit then a.weight else b.weight
        underline := if b.underline = .inherit then a.underline else b.underline
        fg := if b.fg = .inherit then a.fg else b.fg
        bg := if b.bg = .inherit then a.bg else b.bg }) ∧
    (∃ a b : Style, union (some a) (some b) ≠ union (some b) (some a)) := by
  refine ⟨fun b => by cases b <;> rfl, fun a => by cases a <;> rfl, fun a b => ?_, ?_⟩
  · show some (a.union b) = _
    rw [Style.union, color_update_eq, color_update_eq,
      weight_update_eq, boolean_update_eq]
  · exact ⟨Style.empty.withFg .red, Style.empty.withFg .blue, by decide⟩

/-- C5: `add` stores the style at the trie node reached by the
selector's segments, completely replacing any style previously stored
there: adding twice with an identical selector equals adding only the
second style (no per-attribute merge), and a lookup matching only that
selector returns the second style unchanged. -/
theorem add_overwrites :
    (∀ (sel : List Segment) (n : Node) (s1 s2 : Style),
      (n.add sel s1).add sel s2 = n.add sel s2) ∧
    (∀ s1 s2 : Style,
      ((Stylesheet.new.addS "a b" s1).addS "a b" s2).get ["a", "b"] = some s2) := by
  constructor
  · intro sel
    induction sel with
    | nil =>
      intro n s1 s2
      cases n
      rfl
    | cons s rest ih =>
      intro n s1 s2
      cases n with
      | mk seg ch decl =>
        simp only [Node.add]
        rw [getChild_setChild]
        simp only [Option.getD_some]
        rw [ih, setChild_setChild]
  · intro s1 s2
    rfl

/-- C6: every document built only via the provided combinators is
balanced: each prefix of its node sequence contains at least as many
`OpenSection` as `CloseSection` nodes, and the whole sequence contains
exactly as many. -/
theorem built_documents_balanced (r : Renderable) :
    (∀ k, closes (((Document.with r).nodes).take k) ≤
      opens (((Document.with r).nodes).take k)) ∧
    opens ((Document.with r).nodes) = closes ((Document.with r).nodes) := by
  have h : (Document.with r).nodes = fragNodes r := by
    rw [Document.with, render_nodes r Document.empty]
    rfl
  rw [h]
  exact ⟨(frag_bal r).1, (frag_bal r).2⟩

/-- C7: the terminal writer fails fatally (modelled as `none`) when it
processes a `CloseSection` with an empty nesting stack, and for every
document satisfying the balanced-nesting precondition the writer
completes without underflow. -/
theorem writer_underflow_behavior :
    (∀ (sheet : Stylesheet) (rest : List DocNode) (out : List OutEvent),
      writeNodes sheet (.closeSection :: rest) [] out = none) ∧
    (∀ (d : Document) (sheet : Stylesheet),
      (∀ k, closes (d.nodes.take k) ≤ opens (d.nodes.take k)) →
      ∃ res, d.write_with sheet = some res) := by
  constructor
  · intro sheet rest out
    rfl
  · intro d sheet h
    rcases hd : d.tree with _ | nodes
    · refine ⟨[.reset], ?_⟩
      unfold Document.write_with
      rw [hd]
    · have hnodes : d.nodes = nodes := by
        rw [Document.nodes, hd]
        rfl
      obtain ⟨res, hres⟩ := writeNodes_total sheet nodes [] [.reset] (by
        intro k
        have hk := h k
        rw [hnodes] at hk
        simpa using hk)
      refine ⟨res, ?_⟩
      unfold Document.write_with
      rw [hd]
      exact hres

/-- Witness for C7: the writer panics on a bare `CloseSection`, and
succeeds on the balanced document `[OpenSection "a", CloseSection]`. -/
theorem writer_underflow_witness :
    writeNodes Stylesheet.new [DocNode.closeSection] [] [] = none ∧
    ∃ res, Document.write_with ⟨some [DocNode.openSection "a", DocNode.closeSection]⟩
      Stylesheet.new = some res := by
  constructor
  · exact writer_underflow_behavior.1 Stylesheet.new [] []
  · refine writer_underflow_behavior.2
      ⟨some [.openSection "a", .closeSection]⟩ Stylesheet.new ?_
    intro k
    rcases k with _ | (_ | n)
    · decide
    · decide
    · rw [List.take_of_length_le (by
        simp [Document.nodes] :
          (Document.mk (some [DocNode.openSection "a", DocNode.closeSection])).nodes.length ≤
            n + 1 + 1)]
      decide

/-- C8: `Join` appends each item's fragment in input order with the
joiner text inserted exactly between consecutive items — never leading
or trailing; for items A, B, C with joiner `", "` the rendered output
is `"A, B, C"` and the joiner node appears exactly twice. -/
theorem join_between_items :
    (∀ (j : String) (items : List Renderable) (d : Document),
      (render (.Join j items) d).nodes = d.nodes ++ joinSpecNodes j (items.map fragNodes)) ∧
    (Document.with (.Join ", " [.Text "A", .Text "B", .Text "C"])).to_string =
      some "A, B, C" ∧
    ((Document.with (.Join ", " [.Text "A", .Text "B", .Text "C"])).nodes.count
      (DocNode.text ", ")) = 2 := by
  refine ⟨fun j items d => ?_, ?_, ?_⟩
  · rw [render_nodes, show fragNodes (.Join j items) = joinFrag j items from rfl,
      joinFrag_eq_spec]
  · rfl
  · rfl

/-- C9 (counterexample): parsing the valid style string `"fg: blue"`
and re-serializing the resulting `Style` via its `Display` impl yields
`Style \x7bfg=blue\x7d`, which is not in the style-string grammar:
re-parsing it fails (the parser panics on the missing `:`), so the
round-trip does not produce a style with the same resolved
attributes. -/
theorem style_roundtrip_counterexample :
    Style.from_stylesheet "fg: blue".toList =
      some { weight := .inherit, underline := .inherit, fg := .color .blue, bg := .inherit } ∧
    Style.from_stylesheet (Style.display
      { weight := .inherit, underline := .inherit, fg := .color .blue, bg := .inherit }) =
      none := by
  exact ⟨rfl, rfl⟩

/-- C9 (amended): the code has no serializer back into the
`key: value; ...` style-string grammar; its only Style serialization is
the `Display` impl, whose output `Style \x7b...\x7d` contains no `:`
and is nonempty, so re-parsing the serialization of any style fails
(panics) instead of producing an equivalent style. -/
theorem display_not_reparseable (s : Style) :
    Style.from_stylesheet (Style.display s) = none := by
  rw [Style.from_stylesheet,
    styleStringPairs_none (display_ne_nil s) (colon_not_mem_display s)]
  rfl

/-- C10: a trie node that has a stored style but also at least one
child and no `Glob` child is never a terminal match — `find` on the
exactly-matching (empty remaining) path returns `none` from that
branch; in particular, with both `"a"` and `"a b"` in the stylesheet,
`get ["a"]` does not return the style stored for `"a"`. -/
theorem nonglob_children_never_terminal :
    (∀ (n : Node) (s : Style), n.declarations = some s → n.children ≠ [] →
      getChild n.children .glob = none → n.find [] = none) ∧
    (∀ s1 s2 : Style, ((Stylesheet.new.addS "a" s1).addS "a b" s2).get ["a"] = none) := by
  constructor
  · intro n s hdecl hne hglob
    rcases n with ⟨seg, children, decl⟩
    simp only [Node.children] at hglob hne
    cases children with
    | nil => exact absurd rfl hne
    | cons p rest =>
      have hterm : Node.terminal (.mk seg (p :: rest) decl) = none := by
        rw [Node.terminal]
        simp only [Node.children]
        rw [hglob]
      rw [Node.find, hterm]
  · intro s1 s2
    rfl

/-- Witness for C10: a node for segment `a` holding a style, with one
child `b` and no glob child, is not found on the empty path. -/
theorem nonglob_children_witness :
    Node.find (Node.mk (.name "a") [(.name "b", Node.new (.name "b"))] (some Style.empty)) [] =
      none :=
  nonglob_children_never_terminal.1 _ Style.empty rfl (fun h => List.noConfusion h) rfl
